import Mathlib

/-!
Verification of the PhD-listing scraping pipeline (`main.py`).

Shallow embedding conventions:
* Python strings are modelled as `List Char` (named `Str` below).
* JSON values (results of `json.loads`) are modelled by the inductive `Json`;
  Python truthiness of such a value is `Json.truthy`.
* The DOM produced by BeautifulSoup is modelled by the inductive `Forest`
  (a sibling-list / child-list rose forest).  A search-results page is
  abstracted by the ordered list of `href` attributes of its anchor tags.
* Network and model I/O is modelled by oracle functions collected in `Env`:
  `searchFetch`/`pageFetch` return `none` exactly when `requests` raises,
  `extractModel` is the LLM completion for the field-extraction prompt and
  `parseQueries`/`parseInfo` stand for `json.loads` at the two call sites.
* The orchestrator `main_agent` is instrumented with a ghost event trace
  (`Ev`): one `query` event per search query handed to `get_project_links`,
  one `fetch` event per link handed to `get_clean_text`, one `accept` event
  per record appended to `all_projects`.
* An uncaught Python exception (the `TypeError` raised by item assignment on
  a non-dict) is modelled by `Except.error ()`; nothing is persisted there.
-/

abbrev Str : Type := List Char

/-- Convert a Lean string literal to the `List Char` model of Python strings. -/
def pyStr (s : String) : Str := s.toList

/-- JSON values as returned by `json.loads`. -/
inductive Json where
  | null : Json
  | bool (b : Bool) : Json
  | num (n : Int) : Json
  | str (s : Str) : Json
  | arr (elems : List Json) : Json
  | obj (fields : List (Str × Json)) : Json

/-- Python truthiness of a parsed JSON value (`if x:`). -/
def Json.truthy : Json → Bool
  | .null => false
  | .bool b => b
  | .num n => decide (n ≠ 0)
  | .str s => decide (s ≠ [])
  | .arr elems => !elems.isEmpty
  | .obj fields => !fields.isEmpty

/-- A Python dict with string keys and JSON values (the shape of a parsed
JSON object), as an association list in insertion order. -/
abbrev RecordT : Type := List (Str × Json)

/-- Lookup in a dict / parsed JSON object (`config.get(k)` / `k in config`). -/
def cfgGet : List (Str × Json) → Str → Option Json
  | [], _ => none
  | (k, v) :: rest, key => if k = key then some v else cfgGet rest key

/-- Python dict item assignment `d[k] = v`: overwrite in place if the key is
present, otherwise append the new key at the end (insertion order). -/
def dictSet (kvs : RecordT) (k : Str) (v : Json) : RecordT :=
  if k ∈ kvs.map Prod.fst then
    kvs.map (fun p => if p.1 = k then (k, v) else p)
  else kvs ++ [(k, v)]

/-- Python item assignment `x[k] = v` on an arbitrary JSON value: succeeds on
a dict, raises `TypeError` (modelled as `Except.error ()`) on anything else.
On success it returns the updated dict. -/
def pySetItem : Json → Str → Json → Except Unit RecordT
  | .obj kvs, k, v => .ok (dictSet kvs k v)
  | _, _, _ => .error ()

-- -------------------------
-- Configuration Management (`load_config`, main.py lines 20-48)
-- -------------------------

def required_fields : List Str :=
  [pyStr "api_key", pyStr "api_base", pyStr "model_name"]

/-- Embedding of `load_config` after the JSON file has been read and parsed:
the input is the parsed `config` object.  `field not in config or not
config[field]` is absence or Python-falsiness of the value; on failure the
raised `ValueError` carries exactly the computed `missing_fields` list. -/
def load_config (config : List (Str × Json)) : Except (List Str) (Json × Json × Json) :=
  let missing_fields := required_fields.filter fun field =>
    match cfgGet config field with
    | none => true
    | some v => !v.truthy
  if missing_fields = [] then
    .ok ((cfgGet config (pyStr "api_key")).getD .null,
         (cfgGet config (pyStr "api_base")).getD .null,
         (cfgGet config (pyStr "model_name")).getD .null)
  else .error missing_fields

-- -------------------------
-- Query generation parsing (`generate_search_queries`, main.py lines 110-117)
-- -------------------------

/-- Python `str.removeprefix`: drop `pre` from the front when it is a prefix. -/
def removeStart (s pre : Str) : Str :=
  if pre.isPrefixOf s then s.drop pre.length else s

/-- Python `str.removesuffix`: drop `suf` from the end when it is a suffix. -/
def removeEnd (s suf : Str) : Str :=
  if suf.isSuffixOf s then s.take (s.length - suf.length) else s

/-- The fence-stripping step of `generate_search_queries`:
`response.removeprefix("` followed by "``json").removesuffix("``" and a backtick)`. -/
def strip_code_fences (response_text : Str) : Str :=
  removeEnd (removeStart response_text (pyStr "```json")) (pyStr "```")

/-- The parsing step of `generate_search_queries`:
`json.loads` (abstracted by `parse`) applied to the fence-stripped response. -/
def parse_queries (parse : Str → Option (List Str)) (response_text : Str) :
    Option (List Str) :=
  parse (strip_code_fences response_text)

-- -------------------------
-- HTML model and `get_clean_text` (main.py lines 154-184)
-- -------------------------

/-- A DOM forest: a sequence of sibling nodes, each either a text node or an
element with a tag, a child forest and the following siblings. -/
inductive Forest where
  | nil : Forest
  | text (s : Str) (rest : Forest) : Forest
  | elem (tag : Str) (children : Forest) (rest : Forest) : Forest

def noise_tags : List Str :=
  [pyStr "script", pyStr "style", pyStr "nav", pyStr "footer", pyStr "header"]

def content_tags : List Str :=
  [pyStr "p", pyStr "h1", pyStr "h2", pyStr "h3", pyStr "h4", pyStr "li"]

/-- The `tag.decompose()` pass: remove every `script/style/nav/footer/header`
element (with its whole subtree) from the document. -/
def scrub : Forest → Forest
  | .nil => .nil
  | .text s rest => .text s (scrub rest)
  | .elem tag children rest =>
    if tag ∈ noise_tags then scrub rest
    else .elem tag (scrub children) (scrub rest)

/-- `soup.find_all(tags)`: all elements whose tag is in `tags`, in document
(pre-)order, each given as its tag together with its child forest. -/
def findAll (tags : List Str) : Forest → List (Str × Forest)
  | .nil => []
  | .text _ rest => findAll tags rest
  | .elem tag children rest =>
    (if tag ∈ tags then [(tag, children)] else [])
      ++ findAll tags children ++ findAll tags rest

/-- Strip leading and trailing whitespace from a string (Python `str.strip`). -/
def stripWs (s : Str) : Str :=
  ((s.dropWhile Char.isWhitespace).reverse.dropWhile Char.isWhitespace).reverse

/-- The stripped, non-empty text fragments of a forest, in document order
(the pieces `get_text(strip=True)` concatenates). -/
def textFrags : Forest → List Str
  | .nil => []
  | .text s rest =>
    (if stripWs s = [] then [] else [stripWs s]) ++ textFrags rest
  | .elem _ children rest => textFrags children ++ textFrags rest

/-- `tag.get_text(strip=True)` applied to an element's child forest. -/
def get_text (children : Forest) : Str :=
  (textFrags children).foldr (· ++ ·) []

/-- The pure core of `get_clean_text`, applied to the parsed document:
decompose noise tags, collect the text of `p/h1/h2/h3/h4/li` elements, keep
the fragments with `text and len(text) > 10`, join with newlines. -/
def cleanTextOfDoc (doc : Forest) : Str :=
  let soup := scrub doc
  let text_elements :=
    ((findAll content_tags soup).map fun e => get_text e.2).filter
      fun text => decide (text ≠ []) && decide (text.length > 10)
  List.intercalate (pyStr "\n") text_elements

-- -------------------------
-- `get_project_links` (main.py lines 122-149)
-- -------------------------

/-- Python substring test `sub in s`. -/
def containsSub (sub : Str) : Str → Bool
  | [] => sub.isEmpty
  | c :: rest => sub.isPrefixOf (c :: rest) || containsSub sub rest

/-- The URL-qualification step: relative hrefs (those not starting with
`http`) are prefixed with the site's base origin. -/
def fullUrlOf (href : Str) : Str :=
  if (pyStr "http").isPrefixOf href then href
  else pyStr "https://www.findaphd.com" ++ href

/-- The link-collection loop of `get_project_links`, with the accumulated
`links` list made explicit. -/
def harvestLoop : List Str → List Str → List Str
  | [], links => links
  | href :: rest, links =>
    if containsSub (pyStr "/phds/") href then
      let full_url := fullUrlOf href
      if full_url ∈ links then harvestLoop rest links
      else harvestLoop rest (links ++ [full_url])
    else harvestLoop rest links

/-- The pure core of `get_project_links`: from the ordered list of anchor
hrefs of the fetched search page to the harvested project links. -/
def harvestLinks (hrefs : List Str) : List Str := harvestLoop hrefs []

-- -------------------------
-- Oracles and orchestrator (`main_agent`, main.py lines 243-311)
-- -------------------------

/-- The pipeline's external world: LLM responses, `json.loads` outcomes and
fetch results.  A `none` fetch result models a raised `RequestException`. -/
structure Env where
  genResponse : Str
  parseQueries : Str → Option (List Str)
  searchFetch : Str → Option (List Str)
  pageFetch : Str → Option Forest
  extractModel : Str → Str
  parseInfo : Str → Option Json

/-- `generate_search_queries`: one model call, strip fences, `json.loads`;
`none` is a raised `JSONDecodeError`. -/
def generate_search_queries (env : Env) : Option (List Str) :=
  parse_queries env.parseQueries env.genResponse

/-- `get_project_links` with the fetch modelled by the oracle: an exception
yields `[]`, otherwise the links harvested from the page's anchor hrefs. -/
def get_project_links (env : Env) (search_url : Str) : List Str :=
  match env.searchFetch search_url with
  | none => []
  | some hrefs => harvestLinks hrefs

/-- `get_clean_text` with the fetch modelled by the oracle: an exception
yields the empty string, otherwise the cleaned document text. -/
def get_clean_text (env : Env) (project_url : Str) : Str :=
  match env.pageFetch project_url with
  | none => []
  | some doc => cleanTextOfDoc doc

/-- `extract_project_info`.  The second component counts model completion
requests issued.  A blob that is empty or shorter than 50 characters is
rejected before any model call; otherwise the blob is truncated to 4000
characters, sent to the model, and the response is parsed as JSON (parse
failure yielding `none`).  `project_url` is accepted but unused, as in the
source. -/
def extract_project_info (env : Env) (text_blob : Str) (project_url : Str) :
    Option Json × Nat :=
  if text_blob = [] ∨ text_blob.length < 50 then (none, 0)
  else
    let truncated := text_blob.take 4000
    let response_text := env.extractModel truncated
    match env.parseInfo response_text with
    | some project_info => (some project_info, 1)
    | none => (none, 1)

/-- Ghost trace events of a run: a search query handed to
`get_project_links`, a link handed to `get_clean_text`, a record appended to
`all_projects`. -/
inductive Ev where
  | query (q : Str) : Ev
  | fetch (u : Str) : Ev
  | accept (r : RecordT) : Ev

/-- Orchestrator state: the `all_projects` list plus the ghost event trace. -/
structure St where
  projects : List RecordT
  trace : List Ev

/-- The cap test `max_projects and len(all_projects) >= max_projects`
(Python truthiness: `None` and `0` are both falsy). -/
def capReached (max_projects : Option Nat) (n : Nat) : Bool :=
  match max_projects with
  | none => false
  | some m => if m = 0 then false else decide (m ≤ n)

/-- The inner (per-link) loop of `main_agent`: cap check, fetch + text
extraction, field extraction, url attachment and accept/skip.  A `TypeError`
from the url attachment propagates as `Except.error ()`. -/
def processLinks (env : Env) (max_projects : Option Nat) :
    List Str → St → Except Unit St
  | [], st => .ok st
  | url :: rest, st =>
    if capReached max_projects st.projects.length then .ok st
    else
      let st₁ : St := ⟨st.projects, st.trace ++ [.fetch url]⟩
      let text_blob := get_clean_text env url
      if text_blob = [] then processLinks env max_projects rest st₁
      else
        match (extract_project_info env text_blob url).1 with
        | none => processLinks env max_projects rest st₁
        | some project_info =>
          if project_info.truthy then
            match pySetItem project_info (pyStr "url") (.str url) with
            | .error e => .error e
            | .ok record =>
              processLinks env max_projects rest
                ⟨st₁.projects ++ [record], st₁.trace ++ [.accept record]⟩
          else processLinks env max_projects rest st₁

/-- The outer (per-query) loop of `main_agent`: harvest links, skip empty
queries, run the per-link loop, stop when the cap is reached. -/
def processQueries (env : Env) (max_projects : Option Nat) :
    List Str → St → Except Unit St
  | [], st => .ok st
  | query_url :: rest, st =>
    let st₁ : St := ⟨st.projects, st.trace ++ [.query query_url]⟩
    let project_links := get_project_links env query_url
    if project_links = [] then processQueries env max_projects rest st₁
    else
      match processLinks env max_projects project_links st₁ with
      | .error e => .error e
      | .ok st₂ =>
        if capReached max_projects st₂.projects.length then .ok st₂
        else processQueries env max_projects rest st₂

/-- Column set of `pd.DataFrame(records)`: the union of the records' keys in
order of first appearance. -/
def dfColumns (records : List RecordT) : List Str :=
  records.foldl
    (fun cols r => cols ++ (r.map Prod.fst).filter (fun k => decide (k ∉ cols))) []

/-- The observable outcome of a completed run: the Python return value
(`None` when query generation failed to parse), the written CSV (columns and
rows) when one was written, and the ghost event trace. -/
structure RunResult where
  result : Option (List RecordT)
  csv : Option (List Str × List RecordT)
  trace : List Ev

/-- `main_agent`: query generation (parse failure returns early with nothing
written), the query/link loops, and the final CSV write iff `all_projects`
is non-empty.  `Except.error ()` is an uncaught exception aborting the run. -/
def main_agent (env : Env) (max_projects : Option Nat) : Except Unit RunResult :=
  match generate_search_queries env with
  | none => .ok ⟨none, none, []⟩
  | some search_queries =>
    match processQueries env max_projects search_queries ⟨[], []⟩ with
    | .error e => .error e
    | .ok st =>
      if st.projects.isEmpty then .ok ⟨some st.projects, none, st.trace⟩
      else .ok ⟨some st.projects, some (dfColumns st.projects, st.projects), st.trace⟩

-- -------------------------
-- Spec-side definitions (written from the specification's wording, to be
-- compared with the code embeddings above)
-- -------------------------

/-- First-seen deduplication as the spec words it: keep each URL at its
first occurrence, deleting all later exact duplicates. -/
def firstSeenDedup : List Str → List Str
  | [] => []
  | a :: l => a :: firstSeenDedup (l.filter fun b => decide (b ≠ a))
termination_by l => l.length
decreasing_by
simp only [List.length_cons, Nat.lt_succ_iff]
exact List.length_filter_le _ _

/-- Concatenation of a fragment list (separator-free join). -/
def concatStr (ts : List Str) : Str := ts.foldr (· ++ ·) []

/-- Spec-side single-pass text collection: the stripped non-empty text
fragments of the document, skipping noise subtrees entirely. -/
def visFrags : Forest → List Str
  | .nil => []
  | .text s rest => (if stripWs s = [] then [] else [stripWs s]) ++ visFrags rest
  | .elem tag children rest =>
    (if tag ∈ noise_tags then [] else visFrags children) ++ visFrags rest

/-- Spec-side single-pass content extraction: one text blob per
paragraph/heading/list-item element in document order, computed while
skipping noise subtrees, without a separate decompose pass. -/
def specFrags : Forest → List Str
  | .nil => []
  | .text _ rest => specFrags rest
  | .elem tag children rest =>
    (if tag ∈ noise_tags then []
     else
       (if tag ∈ content_tags then [concatStr (visFrags children)] else [])
         ++ specFrags children)
      ++ specFrags rest

/-- Spec-side test for a required configuration field that is absent or has
an empty (string) value. -/
def missingOrEmpty (config : List (Str × Json)) (field : Str) : Bool :=
  match cfgGet config field with
  | none => true
  | some (.str s) => decide (s = [])
  | some _ => false

/-- Number of accepted records in a trace. -/
def countAccepts : List Ev → Nat
  | [] => 0
  | .accept _ :: evs => countAccepts evs + 1
  | .query _ :: evs => countAccepts evs
  | .fetch _ :: evs => countAccepts evs

/-- The cap discipline on a trace, starting from `k` already-accepted
records: every query-processing and link-fetch event happens strictly below
the cap `m`. -/
def capOK (m : Nat) : Nat → List Ev → Bool
  | _, [] => true
  | k, .accept _ :: evs => capOK m (k + 1) evs
  | k, .query _ :: evs => decide (k < m) && capOK m k evs
  | k, .fetch _ :: evs => decide (k < m) && capOK m k evs

/-- Number of records in the final result list of a run (0 when the run
aborted or query generation failed). -/
def acceptedCount : Except Unit RunResult → Nat
  | .error _ => 0
  | .ok r => match r.result with | none => 0 | some ps => ps.length

/-- The column list of the CSV a run wrote, if it wrote one. -/
def csvColumns : Except Unit RunResult → Option (List Str)
  | .error _ => none
  | .ok r => r.csv.map Prod.fst

/-- A fully inert environment: every model response unparseable, every fetch
failing. -/
def envNull : Env where
  genResponse := []
  parseQueries := fun _ => none
  searchFetch := fun _ => none
  pageFetch := fun _ => none
  extractModel := fun _ => []
  parseInfo := fun _ => none

def parseC5 : Str → Option (List Str) :=
  fun s => if s = pyStr "[\"a\"]" then some [pyStr "a"] else none

def cfgC4 : List (Str × Json) :=
  [(pyStr "api_key", Json.str (pyStr "k")), (pyStr "model_name", Json.str [])]

-- Deduplication lemmas for the Link Harvester

/-- The harvest loop restricted to the already-qualified URL stream. -/
def dedupLoop : List Str → List Str → List Str
  | [], links => links
  | u :: us, links =>
    if u ∈ links then dedupLoop us links else dedupLoop us (links ++ [u])

/-- The URLs the harvest loop appends beyond its accumulator. -/
def dedupNew : List Str → List Str → List Str
  | [], _ => []
  | u :: us, seen =>
    if u ∈ seen then dedupNew us seen else u :: dedupNew us (seen ++ [u])

/-- The example document of the claim: a container with a 5-character
paragraph, a 50-character paragraph, and a script element whose text must
not leak into the output. -/
def docC8 : Forest :=
  .elem (pyStr "div")
    (.elem (pyStr "p") (.text (pyStr "Hello") .nil)
      (.elem (pyStr "script") (.text (pyStr "var x = 1; console.log(x); some junk") .nil)
        (.elem (pyStr "p")
          (.text (pyStr "This paragraph is fifty characters long, exactly..") .nil)
          .nil)))
    .nil

/-- A project page whose only paragraph is comfortably longer than the
50-character extraction threshold. -/
def docLong : Forest :=
  .elem (pyStr "p")
    (.text (pyStr "This is a sufficiently long project description paragraph for extraction.")
      .nil)
    .nil

/-- A cooperative environment: one query, two harvested project links, both
pages extractable, the model returning the same one-field object for each. -/
def envC1 : Env where
  genResponse := pyStr "x"
  parseQueries := fun _ => some [pyStr "q"]
  searchFetch := fun _ => some [pyStr "/phds/1", pyStr "/phds/2"]
  pageFetch := fun _ => some docLong
  extractModel := fun _ => pyStr "resp"
  parseInfo := fun _ => some (.obj [(pyStr "title", .str (pyStr "T"))])

def recC1 : RecordT :=
  [(pyStr "title", Json.str (pyStr "T")),
   (pyStr "url", Json.str (pyStr "https://www.findaphd.com/phds/1"))]

def runC1 : RunResult :=
  ⟨some [recC1], some ([pyStr "title", pyStr "url"], [recC1]),
   [.query (pyStr "q"), .fetch (pyStr "https://www.findaphd.com/phds/1"),
    .accept recC1]⟩

/-- A cooperative environment with a single harvested link. -/
def envC7 : Env where
  genResponse := pyStr "x"
  parseQueries := fun _ => some [pyStr "q"]
  searchFetch := fun _ => some [pyStr "/phds/1"]
  pageFetch := fun _ => some docLong
  extractModel := fun _ => pyStr "resp"
  parseInfo := fun _ => some (.obj [(pyStr "title", .str (pyStr "T"))])

def recC7 : RecordT :=
  [(pyStr "title", Json.str (pyStr "T")),
   (pyStr "url", Json.str (pyStr "https://www.findaphd.com/phds/1"))]

def runC7 : RunResult :=
  ⟨some [recC7], some ([pyStr "title", pyStr "url"], [recC7]),
   [.query (pyStr "q"), .fetch (pyStr "https://www.findaphd.com/phds/1"),
    .accept recC7]⟩

/-- A project page for the first link of the C7 counterexample. -/
def docA : Forest :=
  .elem (pyStr "p")
    (.text (pyStr "Alpha project description paragraph long enough for extraction here.")
      .nil)
    .nil

/-- A project page for the second link of the C7 counterexample. -/
def docB : Forest :=
  .elem (pyStr "p")
    (.text (pyStr "Beta project description paragraph long enough for extraction there.")
      .nil)
    .nil

/-- An environment in which the extractor returns objects with different key
sets for the two links. -/
def envC7c : Env where
  genResponse := pyStr "x"
  parseQueries := fun _ => some [pyStr "q"]
  searchFetch := fun _ => some [pyStr "/phds/1", pyStr "/phds/2"]
  pageFetch := fun u =>
    if u = pyStr "https://www.findaphd.com/phds/1" then some docA else some docB
  extractModel := fun blob => blob
  parseInfo := fun rsp =>
    if rsp = cleanTextOfDoc docA then some (.obj [(pyStr "a", .num 1)])
    else some (.obj [(pyStr "b", .num 2)])

/-- Environment with two harvested links: the first link's extraction parses
to a proper object (accepted as a record), the second link's extraction
parses to a truthy non-object JSON value (a non-empty array). -/
def envC10 : Env where
  genResponse := pyStr "x"
  parseQueries := fun _ => some [pyStr "q"]
  searchFetch := fun _ => some [pyStr "/phds/1", pyStr "/phds/2"]
  pageFetch := fun u =>
    if u = pyStr "https://www.findaphd.com/phds/1" then some docA else some docB
  extractModel := fun blob => blob
  parseInfo := fun rsp =>
    if rsp = cleanTextOfDoc docA then some (.obj [(pyStr "title", .str (pyStr "T"))])
    else some (.arr [.num 1])

/-- The record accepted from the first link of `envC10` before the abort. -/
def recC10 : RecordT :=
  [(pyStr "title", Json.str (pyStr "T")),
   (pyStr "url", Json.str (pyStr "https://www.findaphd.com/phds/1"))]

/-- Environment whose field-extraction response parses to a falsy non-object
JSON value (an empty array). -/
def envC10c : Env where
  genResponse := pyStr "x"
  parseQueries := fun _ => some [pyStr "q"]
  searchFetch := fun _ => some [pyStr "/phds/1"]
  pageFetch := fun _ => some docLong
  extractModel := fun _ => pyStr "resp"
  parseInfo := fun _ => some (.arr [])

-- -------------------------
-- Theorems
-- -------------------------

-- -------------------------
-- Helper lemmas
-- -------------------------

theorem capReached_zero_eq_none (n : Nat) : capReached (some 0) n = capReached none n := rfl

theorem processLinks_cap_congr (env : Env) (c₁ c₂ : Option Nat)
    (h : ∀ n, capReached c₁ n = capReached c₂ n) :
    ∀ (links : List Str) (st : St),
      processLinks env c₁ links st = processLinks env c₂ links st := by
  intro links
  induction links with
  | nil => intro st; rfl
  | cons u us ih => intro st; simp only [processLinks, h, ih]

theorem processQueries_cap_congr (env : Env) (c₁ c₂ : Option Nat)
    (h : ∀ n, capReached c₁ n = capReached c₂ n) :
    ∀ (qs : List Str) (st : St),
      processQueries env c₁ qs st = processQueries env c₂ qs st := by
  intro qs
  induction qs with
  | nil => intro st; rfl
  | cons q rest ih =>
    intro st
    simp only [processQueries, h, ih, processLinks_cap_congr env c₁ c₂ h]

-- -------------------------
-- Claim theorems
-- -------------------------

/-- C3: for every text blob that is empty or shorter than the 50-character
minimum length threshold, `extract_project_info` returns the no-result
sentinel `None` and issues zero model completion requests. -/
theorem C3_short_blob_skips_model (env : Env) (text_blob project_url : Str)
    (h : text_blob = [] ∨ text_blob.length < 50) :
    extract_project_info env text_blob project_url = (none, 0) := by
  unfold extract_project_info
  rw [if_pos h]

theorem C3_short_blob_skips_model_witness :
    extract_project_info envNull (pyStr "short") (pyStr "u") = (none, 0) :=
  C3_short_blob_skips_model envNull (pyStr "short") (pyStr "u") (Or.inr (by decide))

/-- C5: for every model response `r` that neither starts with the opening
fence marker nor ends with the closing fence marker (as no valid JSON array
does, since a JSON array cannot begin or end with a backtick), the Query
Generator's parsing step applied to `r` wrapped in a fenced code block
yields the same result as applied to the unwrapped `r`, whatever `json.loads`
(here the abstract `parse`) returns. -/
theorem C5_fence_stripping_transparent (parse : Str → Option (List Str)) (r : Str)
    (hpre : (pyStr "```json").isPrefixOf r = false)
    (hsuf : (pyStr "```").isSuffixOf r = false) :
    parse_queries parse (pyStr "```json" ++ r ++ pyStr "```")
      = parse_queries parse r := by
  have h₁ : strip_code_fences (pyStr "```json" ++ r ++ pyStr "```") = r := by
    have hp : (pyStr "```json").isPrefixOf (pyStr "```json" ++ (r ++ pyStr "```")) = true := by
      simp
    have hs : (pyStr "```").isSuffixOf (r ++ pyStr "```") = true := by
      simp
    simp only [strip_code_fences, removeStart, removeEnd, List.append_assoc, hp, if_true,
      List.drop_left, hs, List.length_append, Nat.add_sub_cancel, List.take_left]
  have h₂ : strip_code_fences r = r := by
    simp only [strip_code_fences, removeStart, removeEnd, hpre, Bool.false_eq_true,
      if_false, hsuf]
  unfold parse_queries
  rw [h₁, h₂]

theorem C5_fence_stripping_transparent_witness :
    parse_queries parseC5 (pyStr "```json" ++ pyStr "[\"a\"]" ++ pyStr "```")
      = parse_queries parseC5 (pyStr "[\"a\"]") :=
  C5_fence_stripping_transparent parseC5 (pyStr "[\"a\"]") (by decide) (by decide)

/-- C6: whenever the query-generation response fails to parse as JSON, the
orchestrator returns immediately: the Python return value is `None`, no CSV
is written, and the trace is empty (no query processed, no link fetched, no
record accepted). -/
theorem C6_query_parse_failure_aborts (env : Env) (max_projects : Option Nat)
    (h : env.parseQueries (strip_code_fences env.genResponse) = none) :
    main_agent env max_projects = .ok ⟨none, none, []⟩ := by
  unfold main_agent generate_search_queries parse_queries
  rw [h]

theorem C6_query_parse_failure_aborts_witness :
    main_agent envNull none = .ok ⟨none, none, []⟩ :=
  C6_query_parse_failure_aborts envNull none rfl

/-- C9: a supplied record cap of 0 is Python-falsy, so the cap check is
skipped entirely and the run is identical (result, CSV and full event trace)
to a run with no cap supplied. -/
theorem C9_zero_cap_behaves_as_uncapped (env : Env) :
    main_agent env (some 0) = main_agent env none := by
  unfold main_agent
  simp only [processQueries_cap_congr env (some 0) none capReached_zero_eq_none]

theorem cfgGet_mem (config : List (Str × Json)) (k : Str) (v : Json)
    (h : cfgGet config k = some v) : (k, v) ∈ config := by
  induction config with
  | nil => exact absurd h (by simp [cfgGet])
  | cons p rest ih =>
    obtain ⟨k', v'⟩ := p
    simp only [cfgGet] at h
    split at h
    · next hk =>
      cases h
      subst hk
      exact List.mem_cons_self _ _
    · next hk => exact List.mem_cons_of_mem _ (ih h)

/-- C4: over settings files whose values are strings (the shape the external
interface prescribes), `load_config` fails exactly when some required key is
absent or empty, the raised error names exactly the missing-or-empty
required fields (in the fixed required-field order), and otherwise it
returns the three stored values. -/
theorem C4_load_config_names_missing_fields (config : List (Str × Json))
    (hstr : ∀ p ∈ config, ∃ s, p.2 = Json.str s) :
    (required_fields.filter (missingOrEmpty config) ≠ [] →
      load_config config = .error (required_fields.filter (missingOrEmpty config))) ∧
    (required_fields.filter (missingOrEmpty config) = [] →
      ∃ a b c, cfgGet config (pyStr "api_key") = some a ∧
        cfgGet config (pyStr "api_base") = some b ∧
        cfgGet config (pyStr "model_name") = some c ∧
        load_config config = .ok (a, b, c)) := by
  have hpt : ∀ f ∈ required_fields,
      (match cfgGet config f with
        | none => true
        | some v => !v.truthy) = missingOrEmpty config f := by
    intro f _
    unfold missingOrEmpty
    cases hc : cfgGet config f with
    | none => rfl
    | some v =>
      obtain ⟨s, hs⟩ := hstr _ (cfgGet_mem config f v hc)
      simp only at hs
      subst hs
      simp [Json.truthy]
  have hfe : (required_fields.filter fun field =>
      match cfgGet config field with
      | none => true
      | some v => !v.truthy) = required_fields.filter (missingOrEmpty config) :=
    List.filter_congr hpt
  constructor
  · intro hne
    simp only [load_config, hfe]
    rw [if_neg hne]
  · intro heq
    have hall := List.filter_eq_nil_iff.mp heq
    have h1 := hall (pyStr "api_key") (by simp [required_fields])
    have h2 := hall (pyStr "api_base") (by simp [required_fields])
    have h3 := hall (pyStr "model_name") (by simp [required_fields])
    cases hc1 : cfgGet config (pyStr "api_key") with
    | none => simp [missingOrEmpty, hc1] at h1
    | some a =>
      cases hc2 : cfgGet config (pyStr "api_base") with
      | none => simp [missingOrEmpty, hc2] at h2
      | some b =>
        cases hc3 : cfgGet config (pyStr "model_name") with
        | none => simp [missingOrEmpty, hc3] at h3
        | some c =>
          refine ⟨a, b, c, rfl, rfl, rfl, ?_⟩
          simp only [load_config, hfe]
          rw [if_pos heq, hc1, hc2, hc3]
          rfl

theorem C4_load_config_names_missing_fields_witness :
    (required_fields.filter (missingOrEmpty cfgC4) ≠ [] →
      load_config cfgC4 = .error (required_fields.filter (missingOrEmpty cfgC4))) ∧
    (required_fields.filter (missingOrEmpty cfgC4) = [] →
      ∃ a b c, cfgGet cfgC4 (pyStr "api_key") = some a ∧
        cfgGet cfgC4 (pyStr "api_base") = some b ∧
        cfgGet cfgC4 (pyStr "model_name") = some c ∧
        load_config cfgC4 = .ok (a, b, c)) :=
  C4_load_config_names_missing_fields cfgC4 (by
    intro p hp
    simp only [cfgC4, List.mem_cons, List.mem_singleton, List.not_mem_nil] at hp
    rcases hp with h | h | h
    · exact ⟨pyStr "k", by rw [h]⟩
    · exact ⟨[], by rw [h]⟩
    · exact absurd h (by simp))

theorem harvestLoop_eq_dedupLoop (hrefs : List Str) :
    ∀ links, harvestLoop hrefs links
      = dedupLoop ((hrefs.filter fun h => containsSub (pyStr "/phds/") h).map fullUrlOf)
          links := by
  induction hrefs with
  | nil => intro links; rfl
  | cons href rest ih =>
    intro links
    by_cases hp : containsSub (pyStr "/phds/") href = true
    · simp only [harvestLoop, hp, if_true, List.filter_cons_of_pos hp, List.map_cons,
        dedupLoop, ih]
    · have hp' : containsSub (pyStr "/phds/") href = false := by
        cases h : containsSub (pyStr "/phds/") href
        · rfl
        · exact absurd h hp
      rw [List.filter_cons_of_neg hp]
      simp only [harvestLoop, hp', Bool.false_eq_true, if_false, ih]

theorem dedupLoop_eq_append : ∀ (us links : List Str),
    dedupLoop us links = links ++ dedupNew us links := by
  intro us
  induction us with
  | nil => intro links; simp [dedupLoop, dedupNew]
  | cons u rest ih =>
    intro links
    by_cases hm : u ∈ links
    · simp only [dedupLoop, dedupNew, if_pos hm, ih]
    · simp only [dedupLoop, dedupNew, if_neg hm, ih, List.append_assoc,
        List.singleton_append]

theorem dedupNew_eq_firstSeenDedup : ∀ (us seen : List Str),
    dedupNew us seen = firstSeenDedup (us.filter fun x => decide (x ∉ seen)) := by
  intro us
  induction us with
  | nil => intro seen; simp [dedupNew, firstSeenDedup]
  | cons u rest ih =>
    intro seen
    by_cases hm : u ∈ seen
    · rw [List.filter_cons_of_neg (by simp [hm])]
      simp only [dedupNew, if_pos hm, ih]
    · rw [List.filter_cons_of_pos (by simp [hm])]
      have hflt : (rest.filter fun x => decide (x ∉ seen ++ [u]))
          = ((rest.filter fun x => decide (x ∉ seen)).filter fun b => decide (b ≠ u)) := by
        rw [List.filter_filter]
        apply List.filter_congr
        intro a _
        by_cases h1 : a = u <;> by_cases h2 : a ∈ seen <;>
          simp [h1, h2, List.mem_append]
      simp only [dedupNew, if_neg hm, ih, hflt, firstSeenDedup]

theorem firstSeenDedup_subset : ∀ (l : List Str) (x : Str),
    x ∈ firstSeenDedup l → x ∈ l := by
  intro l
  induction l using firstSeenDedup.induct with
  | case1 => intro x hx; exact absurd hx (by simp [firstSeenDedup])
  | case2 a l ih =>
    intro x hx
    rw [firstSeenDedup] at hx
    rcases List.mem_cons.mp hx with h | h
    · exact h ▸ List.mem_cons_self _ _
    · exact List.mem_cons_of_mem _ (List.mem_of_mem_filter (ih x h))

theorem firstSeenDedup_nodup : ∀ l : List Str, (firstSeenDedup l).Nodup := by
  intro l
  induction l using firstSeenDedup.induct with
  | case1 => simp [firstSeenDedup]
  | case2 a l ih =>
    rw [firstSeenDedup]
    refine List.nodup_cons.mpr ⟨fun hmem => ?_, ih⟩
    have := List.of_mem_filter (firstSeenDedup_subset _ _ hmem)
    simp at this

/-- C2: the Link Harvester returns exactly the first-seen deduplication of
the qualified URLs of the hrefs containing the listings-path marker, in
document order, and the returned list has no duplicates (each unique URL
appears exactly once). -/
theorem C2_link_harvester_unique_first_seen (hrefs : List Str) :
    harvestLinks hrefs
      = firstSeenDedup
          ((hrefs.filter fun h => containsSub (pyStr "/phds/") h).map fullUrlOf)
    ∧ (harvestLinks hrefs).Nodup := by
  have h1 : harvestLinks hrefs
      = firstSeenDedup
          ((hrefs.filter fun h => containsSub (pyStr "/phds/") h).map fullUrlOf) := by
    rw [harvestLinks, harvestLoop_eq_dedupLoop, dedupLoop_eq_append,
      dedupNew_eq_firstSeenDedup]
    simp only [List.nil_append]
    have hid : (((hrefs.filter fun h => containsSub (pyStr "/phds/") h).map
          fullUrlOf).filter fun x => decide (x ∉ ([] : List Str)))
        = (hrefs.filter fun h => containsSub (pyStr "/phds/") h).map fullUrlOf := by
      apply List.filter_eq_self.mpr
      intro a _
      simp
    rw [hid]
  exact ⟨h1, h1 ▸ firstSeenDedup_nodup _⟩

-- Text-extractor refinement lemmas

theorem textFrags_scrub (f : Forest) : textFrags (scrub f) = visFrags f := by
  induction f with
  | nil => rfl
  | text s rest ih => simp only [scrub, textFrags, visFrags, ih]
  | elem tag children rest ih1 ih2 =>
    by_cases hn : tag ∈ noise_tags
    · simp only [scrub, visFrags, if_pos hn, ih2, List.nil_append]
    · simp only [scrub, visFrags, if_neg hn, textFrags, ih1, ih2]

theorem findAll_scrub_get_text (f : Forest) :
    ((findAll content_tags (scrub f)).map fun e => get_text e.2) = specFrags f := by
  induction f with
  | nil => rfl
  | text s rest ih => simp only [scrub, findAll, specFrags, ih]
  | elem tag children rest ih1 ih2 =>
    by_cases hn : tag ∈ noise_tags
    · simp only [scrub, specFrags, if_pos hn, ih2, List.nil_append]
    · simp only [scrub, specFrags, if_neg hn, findAll, List.map_append, ih1, ih2,
        List.append_assoc]
      congr 1
      by_cases hc : tag ∈ content_tags
      · simp only [if_pos hc, List.map_cons, List.map_nil]
        have : get_text (scrub children) = concatStr (visFrags children) := by
          rw [get_text, textFrags_scrub]; rfl
        rw [this]
      · simp only [if_neg hc, List.map_nil]

/-- C8: the Text Extractor equals the spec-side single pass that skips
script/style/nav/footer/header subtrees, takes one blob per
paragraph/heading/list-item element in document order, keeps only non-empty
blobs longer than 10 characters and joins them with newlines; in particular
on `docC8` the 5-character paragraph is dropped, the script text is removed
and only the 50-character paragraph survives. -/
theorem C8_text_extractor (doc : Forest) :
    cleanTextOfDoc doc
      = List.intercalate (pyStr "\n")
          ((specFrags doc).filter fun text =>
            decide (text ≠ []) && decide (text.length > 10))
    ∧ cleanTextOfDoc docC8
      = pyStr "This paragraph is fifty characters long, exactly.." := by
  constructor
  · rw [cleanTextOfDoc, findAll_scrub_get_text]
  · rfl

-- Cap-invariant lemmas for the orchestrator

theorem capReached_some (m c : Nat) :
    capReached (some m) c = if m = 0 then false else decide (m ≤ c) := rfl

theorem capReached_false_lt {m c : Nat} (hm : 1 ≤ m)
    (h : ¬capReached (some m) c = true) : c < m := by
  rw [capReached_some, if_neg (show ¬m = 0 by omega)] at h
  simp at h
  omega

theorem countAccepts_append (t₁ t₂ : List Ev) :
    countAccepts (t₁ ++ t₂) = countAccepts t₁ + countAccepts t₂ := by
  induction t₁ with
  | nil => simp [countAccepts]
  | cons e rest ih => cases e <;> simp [countAccepts, ih] <;> omega

theorem capOK_append (m : Nat) : ∀ (t₁ t₂ : List Ev) (k : Nat),
    capOK m k (t₁ ++ t₂) = (capOK m k t₁ && capOK m (k + countAccepts t₁) t₂) := by
  intro t₁
  induction t₁ with
  | nil => intro t₂ k; simp [capOK, countAccepts]
  | cons e rest ih =>
    intro t₂ k
    cases e with
    | accept r =>
      simp only [List.cons_append, List.append_eq, capOK, countAccepts, ih]
      have h : k + 1 + countAccepts rest = k + (countAccepts rest + 1) := by omega
      rw [h]
    | query q =>
      simp only [List.cons_append, List.append_eq, capOK, countAccepts, ih, Bool.and_assoc]
    | fetch u =>
      simp only [List.cons_append, List.append_eq, capOK, countAccepts, ih, Bool.and_assoc]

/-- Behaviour of a successful run of the per-link loop under a positive cap:
the trace grows by a suffix whose accepted records account for the growth of
`all_projects`, every fetch in that suffix happens strictly below the cap,
and the cap is never overshot. -/
theorem processLinks_ok_spec (env : Env) (m : Nat) (hm : 1 ≤ m) :
    ∀ (links : List Str) (st st' : St),
      processLinks env (some m) links st = .ok st' →
      ∃ Δ, st'.trace = st.trace ++ Δ
        ∧ st'.projects.length = st.projects.length + countAccepts Δ
        ∧ capOK m st.projects.length Δ = true
        ∧ (st.projects.length ≤ m → st'.projects.length ≤ m) := by
  intro links
  induction links with
  | nil =>
    intro st st' h
    cases h
    exact ⟨[], by simp, by simp [countAccepts], rfl, id⟩
  | cons u us ih =>
    intro st st' h
    simp only [processLinks] at h
    split at h
    · next hcap =>
      cases h
      exact ⟨[], by simp, by simp [countAccepts], rfl, id⟩
    · next hcap =>
      have hlt : st.projects.length < m := capReached_false_lt hm hcap
      have assemble :
          processLinks env (some m) us ⟨st.projects, st.trace ++ [Ev.fetch u]⟩ = .ok st' →
          ∃ Δ, st'.trace = st.trace ++ Δ
            ∧ st'.projects.length = st.projects.length + countAccepts Δ
            ∧ capOK m st.projects.length Δ = true
            ∧ (st.projects.length ≤ m → st'.projects.length ≤ m) := by
        intro h'
        obtain ⟨Δ₁, htr, hlen, hok, hbd⟩ := ih _ _ h'
        refine ⟨Ev.fetch u :: Δ₁, ?_, ?_, ?_, ?_⟩
        · simpa [List.append_assoc] using htr
        · simpa [countAccepts] using hlen
        · simp only [capOK, Bool.and_eq_true, decide_eq_true_eq]
          exact ⟨hlt, by simpa using hok⟩
        · intro hle; exact hbd (by simpa using hle)
      split at h
      · exact assemble h
      · split at h
        · exact assemble h
        · next project_info hsome =>
          split at h
          · split at h
            · exact absurd h (by simp)
            · next record hset =>
              obtain ⟨Δ₂, htr, hlen, hok, hbd⟩ := ih _ _ h
              refine ⟨Ev.fetch u :: Ev.accept record :: Δ₂, ?_, ?_, ?_, ?_⟩
              · simp only at htr
                rw [htr]
                simp [List.append_assoc]
              · simp only [List.length_append, List.length_cons, List.length_nil] at hlen
                simp only [countAccepts]
                omega
              · simp only [capOK, Bool.and_eq_true, decide_eq_true_eq]
                refine ⟨hlt, ?_⟩
                simpa [List.length_append] using hok
              · intro _
                apply hbd
                simp only [List.length_append, List.length_cons, List.length_nil]
                omega
          · exact assemble h

/-- Behaviour of a successful run of the per-query loop under a positive
cap, entered strictly below the cap (as the orchestrator always does). -/
theorem processQueries_ok_spec (env : Env) (m : Nat) (hm : 1 ≤ m) :
    ∀ (qs : List Str) (st st' : St),
      st.projects.length < m →
      processQueries env (some m) qs st = .ok st' →
      ∃ Δ, st'.trace = st.trace ++ Δ
        ∧ st'.projects.length = st.projects.length + countAccepts Δ
        ∧ capOK m st.projects.length Δ = true
        ∧ st'.projects.length ≤ m := by
  intro qs
  induction qs with
  | nil =>
    intro st st' hin h
    cases h
    exact ⟨[], by simp, by simp [countAccepts], rfl, by omega⟩
  | cons q rest ih =>
    intro st st' hin h
    simp only [processQueries] at h
    split at h
    · obtain ⟨Δ₁, htr, hlen, hok, hbd⟩ := ih _ _ (by simpa using hin) h
      refine ⟨Ev.query q :: Δ₁, ?_, ?_, ?_, ?_⟩
      · simpa [List.append_assoc] using htr
      · simpa [countAccepts] using hlen
      · simp only [capOK, Bool.and_eq_true, decide_eq_true_eq]
        exact ⟨hin, by simpa using hok⟩
      · exact hbd
    · split at h
      · exact absurd h (by simp)
      · next st₂ hlinks =>
        obtain ⟨Δ₂, htr₂, hlen₂, hok₂, hbd₂⟩ :=
          processLinks_ok_spec env m hm _ _ _ hlinks
        simp only at htr₂ hlen₂ hok₂ hbd₂
        have hst₂ : st₂.projects.length ≤ m := hbd₂ (by omega)
        split at h
        · cases h
          refine ⟨Ev.query q :: Δ₂, ?_, ?_, ?_, hst₂⟩
          · rw [htr₂]; simp [List.append_assoc]
          · simpa [countAccepts] using hlen₂
          · simp only [capOK, Bool.and_eq_true, decide_eq_true_eq]
            exact ⟨hin, hok₂⟩
        · next hcap₂ =>
          have hlt₂ : st₂.projects.length < m := capReached_false_lt hm hcap₂
          obtain ⟨Δ₃, htr₃, hlen₃, hok₃, hbd₃⟩ := ih _ _ hlt₂ h
          refine ⟨Ev.query q :: (Δ₂ ++ Δ₃), ?_, ?_, ?_, hbd₃⟩
          · rw [htr₃, htr₂]; simp [List.append_assoc]
          · rw [hlen₃, hlen₂]
            simp only [countAccepts, countAccepts_append]
            omega
          · simp only [capOK, Bool.and_eq_true, decide_eq_true_eq, capOK_append]
            refine ⟨hin, hok₂, ?_⟩
            rw [← hlen₂]
            exact hok₃

/-- C1 (amended): for every run completing normally under a supplied cap of
at least 1, the final result list never exceeds the cap, and the trace
respects the cap discipline: every query processed and every link fetched
happens strictly before the cap is reached (so once the cap is reached no
further link is fetched and no further query is processed).  A supplied cap
of 0 is Python-falsy and not enforced (see the counterexample and C9). -/
theorem C1_positive_cap_respected (env : Env) (m : Nat) (hm : 1 ≤ m)
    (r : RunResult) (h : main_agent env (some m) = .ok r) :
    (∀ ps, r.result = some ps → ps.length ≤ m) ∧ capOK m 0 r.trace = true := by
  cases hg : generate_search_queries env with
  | none =>
    have h0 : main_agent env (some m) = .ok ⟨none, none, []⟩ := by
      unfold main_agent; rw [hg]
    rw [h0] at h
    cases h
    exact ⟨fun ps hps => (nomatch hps), rfl⟩
  | some qs =>
    cases hq : processQueries env (some m) qs ⟨[], []⟩ with
    | error e =>
      have h0 : main_agent env (some m) = .error e := by
        simp only [main_agent, hg, hq]
      rw [h0] at h
      exact absurd h (by simp)
    | ok st =>
      obtain ⟨Δ, htr, hlen, hok, hbd⟩ :=
        processQueries_ok_spec env m hm qs ⟨[], []⟩ st (by simpa using hm) hq
      simp only [List.nil_append, List.length_nil, Nat.zero_add] at htr hlen hok
      have h0 : main_agent env (some m) =
          (if st.projects.isEmpty = true then
            Except.ok ⟨some st.projects, none, st.trace⟩
          else
            Except.ok ⟨some st.projects, some (dfColumns st.projects, st.projects),
              st.trace⟩) := by
        simp only [main_agent, hg, hq]
      rw [h0] at h
      split at h
      · cases h
        refine ⟨fun ps hps => ?_, ?_⟩
        · cases hps; exact hbd
        · show capOK m 0 st.trace = true
          rw [htr]; exact hok
      · cases h
        refine ⟨fun ps hps => ?_, ?_⟩
        · cases hps; exact hbd
        · show capOK m 0 st.trace = true
          rw [htr]; exact hok

theorem C1_positive_cap_respected_witness :
    (∀ ps, runC1.result = some ps → ps.length ≤ 1) ∧ capOK 1 0 runC1.trace = true :=
  C1_positive_cap_respected envC1 1 (by decide) runC1 (by rfl)

/-- C1 counterexample: with the cap `some 0` supplied, the very same
environment accepts 2 records — the number of accepted records exceeds the
supplied cap, so the claim fails as stated for cap 0. -/
theorem C1_cap_zero_not_enforced :
    acceptedCount (main_agent envC1 (some 0)) = 2 ∧ ¬(2 ≤ 0) :=
  ⟨rfl, by omega⟩

-- Record-key lemmas for the CSV write

theorem dictSet_key_mem (kvs : RecordT) (k : Str) (v : Json) :
    k ∈ (dictSet kvs k v).map Prod.fst := by
  unfold dictSet
  split
  · next hmem =>
    obtain ⟨p, hp, hpk⟩ := List.mem_map.mp hmem
    apply List.mem_map.mpr
    refine ⟨(k, v), List.mem_map.mpr ⟨p, hp, ?_⟩, rfl⟩
    show (if p.1 = k then (k, v) else p) = (k, v)
    rw [if_pos hpk]
  · apply List.mem_map.mpr
    exact ⟨(k, v), List.mem_append_right _ (List.mem_singleton_self _), rfl⟩

theorem processLinks_url_key (env : Env) (mp : Option Nat) :
    ∀ (links : List Str) (st st' : St),
      processLinks env mp links st = .ok st' →
      ∀ p ∈ st'.projects, p ∈ st.projects ∨ (pyStr "url") ∈ p.map Prod.fst := by
  intro links
  induction links with
  | nil => intro st st' h; cases h; exact fun p hp => Or.inl hp
  | cons u us ih =>
    intro st st' h
    simp only [processLinks] at h
    split at h
    · cases h; exact fun p hp => Or.inl hp
    · split at h
      · exact fun p hp => (ih _ _ h p hp).imp (fun hin => by simpa using hin) id
      · split at h
        · exact fun p hp => (ih _ _ h p hp).imp (fun hin => by simpa using hin) id
        · next project_info hsome =>
          split at h
          · split at h
            · exact absurd h (by simp)
            · next record hset =>
              intro p hp
              rcases ih _ _ h p hp with hin | hkey
              · rcases (by simpa using hin : p ∈ st.projects ∨ p = record) with h1 | hrec
                · exact Or.inl h1
                · right
                  subst hrec
                  cases project_info with
                  | obj kvs =>
                    simp only [pySetItem, Except.ok.injEq] at hset
                    rw [← hset]
                    exact dictSet_key_mem kvs (pyStr "url") (.str u)
                  | null => exact absurd hset (by simp [pySetItem])
                  | bool b => exact absurd hset (by simp [pySetItem])
                  | num n => exact absurd hset (by simp [pySetItem])
                  | str s => exact absurd hset (by simp [pySetItem])
                  | arr xs => exact absurd hset (by simp [pySetItem])
              · exact Or.inr hkey
          · exact fun p hp => (ih _ _ h p hp).imp (fun hin => by simpa using hin) id

theorem processQueries_url_key (env : Env) (mp : Option Nat) :
    ∀ (qs : List Str) (st st' : St),
      processQueries env mp qs st = .ok st' →
      ∀ p ∈ st'.projects, p ∈ st.projects ∨ (pyStr "url") ∈ p.map Prod.fst := by
  intro qs
  induction qs with
  | nil => intro st st' h; cases h; exact fun p hp => Or.inl hp
  | cons q rest ih =>
    intro st st' h
    simp only [processQueries] at h
    split at h
    · exact fun p hp => (ih _ _ h p hp).imp (fun hin => by simpa using hin) id
    · split at h
      · exact absurd h (by simp)
      · next st₂ hlinks =>
        split at h
        · cases h
          exact fun p hp =>
            (processLinks_url_key env mp _ _ _ hlinks p hp).imp
              (fun hin => by simpa using hin) id
        · intro p hp
          rcases ih _ _ h p hp with hin | hkey
          · exact (processLinks_url_key env mp _ _ _ hlinks p hin).imp
              (fun hin2 => by simpa using hin2) id
          · exact Or.inr hkey

theorem dfColumns_foldl_fixed : ∀ (rs : List RecordT) (cols : List Str),
    (∀ q ∈ rs, ∀ k ∈ q.map Prod.fst, k ∈ cols) →
    rs.foldl
      (fun cols r => cols ++ (r.map Prod.fst).filter fun k => decide (k ∉ cols))
      cols = cols := by
  intro rs
  induction rs with
  | nil => intro cols _; rfl
  | cons q rest ih =>
    intro cols hall
    simp only [List.foldl_cons]
    have hnil : ((q.map Prod.fst).filter fun k => decide (k ∉ cols)) = [] := by
      apply List.filter_eq_nil_iff.mpr
      intro k hk
      simp [hall q (List.mem_cons_self _ _) k hk]
    rw [hnil, List.append_nil]
    exact ih cols fun p hp => hall p (List.mem_cons_of_mem _ hp)

theorem dfColumns_uniform (p0 : RecordT) (rest : List RecordT)
    (h : ∀ q ∈ rest, ∀ k ∈ q.map Prod.fst, k ∈ p0.map Prod.fst) :
    dfColumns (p0 :: rest) = p0.map Prod.fst := by
  unfold dfColumns
  simp only [List.foldl_cons, List.nil_append]
  have hself : ((p0.map Prod.fst).filter fun k => decide (k ∉ ([] : List Str)))
      = p0.map Prod.fst := by
    apply List.filter_eq_self.mpr; intro a _; simp
  rw [hself]
  exact dfColumns_foldl_fixed rest _ h

/-- C7 (amended): for every run completing normally, the CSV is written iff
at least one record was accepted; when written, its columns are the union of
the accepted records' keys in order of first appearance (so exactly the
first record's keys whenever no later record introduces a new key), its rows
are the accepted records, and every accepted record carries the attached
source-URL key.  With heterogeneous extractor outputs the column set can
strictly exceed the first record's keys (see the counterexample). -/
theorem C7_csv_written_iff_accepted (env : Env) (max_projects : Option Nat)
    (r : RunResult) (h : main_agent env max_projects = .ok r) :
    (r.csv = none ↔ r.result = none ∨ r.result = some []) ∧
    (∀ ps, r.result = some ps → ps ≠ [] → r.csv = some (dfColumns ps, ps)) ∧
    (∀ ps, r.result = some ps → ∀ p ∈ ps, (pyStr "url") ∈ p.map Prod.fst) ∧
    (∀ p0 prest, r.result = some (p0 :: prest) →
      (∀ q ∈ prest, ∀ k ∈ q.map Prod.fst, k ∈ p0.map Prod.fst) →
      dfColumns (p0 :: prest) = p0.map Prod.fst) := by
  cases hg : generate_search_queries env with
  | none =>
    have h0 : main_agent env max_projects = .ok ⟨none, none, []⟩ := by
      unfold main_agent; rw [hg]
    rw [h0] at h
    cases h
    refine ⟨by simp, fun ps hps => (nomatch hps), fun ps hps => (nomatch hps),
      fun p0 prest hps => (nomatch hps)⟩
  | some qs =>
    cases hq : processQueries env max_projects qs ⟨[], []⟩ with
    | error e =>
      have h0 : main_agent env max_projects = .error e := by
        simp only [main_agent, hg, hq]
      rw [h0] at h
      exact absurd h (by simp)
    | ok st =>
      have hurl : ∀ p ∈ st.projects, (pyStr "url") ∈ p.map Prod.fst := by
        intro p hp
        rcases processQueries_url_key env max_projects qs ⟨[], []⟩ st hq p hp with
          hin | hkey
        · exact absurd hin (by simp)
        · exact hkey
      have h0 : main_agent env max_projects =
          (if st.projects.isEmpty = true then
            Except.ok ⟨some st.projects, none, st.trace⟩
          else
            Except.ok ⟨some st.projects, some (dfColumns st.projects, st.projects),
              st.trace⟩) := by
        simp only [main_agent, hg, hq]
      rw [h0] at h
      split at h
      · next hemp =>
        have hnil : st.projects = [] := List.isEmpty_iff.mp hemp
        cases h
        refine ⟨by simp [hnil], ?_, ?_, ?_⟩
        · intro ps hps hne
          cases hps
          exact absurd hnil hne
        · intro ps hps p hp
          cases hps
          exact hurl p hp
        · intro p0 prest hps huni
          exact dfColumns_uniform p0 prest huni
      · next hemp =>
        have hne : ¬st.projects = [] := fun hc => hemp (by simp [hc])
        cases h
        refine ⟨?_, ?_, ?_, ?_⟩
        · simp only [Option.some.injEq]
          constructor
          · intro hc; exact absurd hc (by simp)
          · rintro (hc | hc)
            · exact absurd hc (by simp)
            · exact absurd (Option.some.injEq _ _ ▸ hc) (by simpa using hne)
        · intro ps hps _
          cases hps
          rfl
        · intro ps hps p hp
          cases hps
          exact hurl p hp
        · intro p0 prest hps huni
          exact dfColumns_uniform p0 prest huni

theorem C7_csv_written_iff_accepted_witness :
    (runC7.csv = none ↔ runC7.result = none ∨ runC7.result = some []) ∧
    (∀ ps, runC7.result = some ps → ps ≠ [] → runC7.csv = some (dfColumns ps, ps)) ∧
    (∀ ps, runC7.result = some ps → ∀ p ∈ ps, (pyStr "url") ∈ p.map Prod.fst) ∧
    (∀ p0 prest, runC7.result = some (p0 :: prest) →
      (∀ q ∈ prest, ∀ k ∈ q.map Prod.fst, k ∈ p0.map Prod.fst) →
      dfColumns (p0 :: prest) = p0.map Prod.fst) :=
  C7_csv_written_iff_accepted envC7 none runC7 (by rfl)

/-- C7 counterexample: when a later record introduces a key absent from the
first accepted record, the written CSV's columns are the first-appearance
union of all records' keys, not merely the first record's keys plus the
source-URL column. -/
theorem C7_columns_not_first_record_only :
    csvColumns (main_agent envC7c none) = some [pyStr "a", pyStr "url", pyStr "b"]
    ∧ some [pyStr "a", pyStr "url", pyStr "b"] ≠ some [pyStr "a", pyStr "url"]
    ∧ some [pyStr "a", pyStr "url", pyStr "b"]
        ≠ some [pyStr "a", pyStr "url", pyStr "url"] :=
  ⟨rfl, by decide, by decide⟩

/-- Processing a link list that completed without breaking on the cap
extends: on `links₁ ++ links₂` the loop first traverses `links₁` and then
continues into `links₂` from the state it reached. -/
theorem processLinks_append (env : Env) (max_projects : Option Nat) :
    ∀ (links₁ links₂ : List Str) (st st' : St),
      processLinks env max_projects links₁ st = .ok st' →
      capReached max_projects st'.projects.length = false →
      processLinks env max_projects (links₁ ++ links₂) st
        = processLinks env max_projects links₂ st' := by
  intro links₁
  induction links₁ with
  | nil => intro links₂ st st' h _; cases h; rfl
  | cons u us ih =>
    intro links₂ st st' h hcap'
    simp only [processLinks] at h
    simp only [List.cons_append, processLinks]
    split at h
    · next hcap =>
      cases h
      exact absurd hcap (by simp [hcap'])
    · next hcap =>
      rw [if_neg hcap]
      split at h
      · next hb => rw [if_pos hb]; exact ih _ _ _ h hcap'
      · next hb =>
        rw [if_neg hb]
        split at h
        · exact ih _ _ _ h hcap'
        · split at h
          · next htru =>
            rw [if_pos htru]
            split at h
            · exact absurd h (by simp)
            · exact ih _ _ _ h hcap'
          · next htru =>
            rw [if_neg htru]
            exact ih _ _ _ h hcap'

/-- Processing a query list that completed without breaking on the cap
extends: on `qs₁ ++ qs₂` the loop first traverses `qs₁` and then continues
into `qs₂` from the state it reached. -/
theorem processQueries_append (env : Env) (max_projects : Option Nat) :
    ∀ (qs₁ qs₂ : List Str) (st st' : St),
      processQueries env max_projects qs₁ st = .ok st' →
      capReached max_projects st'.projects.length = false →
      processQueries env max_projects (qs₁ ++ qs₂) st
        = processQueries env max_projects qs₂ st' := by
  intro qs₁
  induction qs₁ with
  | nil => intro qs₂ st st' h _; cases h; rfl
  | cons q rest ih =>
    intro qs₂ st st' h hcap'
    simp only [processQueries] at h
    simp only [List.cons_append, processQueries]
    split at h
    · next hl => rw [if_pos hl]; exact ih _ _ _ h hcap'
    · next hl =>
      rw [if_neg hl]
      split at h
      · exact absurd h (by simp)
      · split at h
        · next hc₂ =>
          cases h
          exact absurd hc₂ (by simp [hcap'])
        · next hc₂ =>
          rw [if_neg hc₂]
          exact ih _ _ _ h hcap'

/-- C10 (amended): `extract_project_info` returns whatever JSON value the
response parses to, object or not; whenever the run reaches a link — at any
position in any query's harvested link list, possibly after earlier accepted
records — whose extraction parses to a truthy non-object JSON value, the
orchestrator's url attachment raises an uncaught `TypeError` and the whole
run aborts with nothing persisted, discarding any earlier accepted records.
(A falsy non-object value — such as an empty array — is instead skipped like
a failed extraction; see the counterexample.) -/
theorem C10_truthy_non_object_aborts_run (env : Env) (max_projects : Option Nat)
    (qs₁ qs₂ : List Str) (q : Str) (links₁ links₂ : List Str) (url : Str)
    (st st₂ : St) (j : Json)
    (hg : generate_search_queries env = some (qs₁ ++ q :: qs₂))
    (hpre : processQueries env max_projects qs₁ ⟨[], []⟩ = .ok st)
    (hcap₁ : capReached max_projects st.projects.length = false)
    (hl : get_project_links env q = links₁ ++ url :: links₂)
    (hpre₂ : processLinks env max_projects links₁
        ⟨st.projects, st.trace ++ [Ev.query q]⟩ = .ok st₂)
    (hcap₂ : capReached max_projects st₂.projects.length = false)
    (hblob : ¬get_clean_text env url = [])
    (hext : (extract_project_info env (get_clean_text env url) url).1 = some j)
    (htru : j.truthy = true)
    (hobj : ∀ kvs, j ≠ Json.obj kvs) :
    main_agent env max_projects = .error () := by
  have hset : pySetItem j (pyStr "url") (.str url) = .error () := by
    cases j
    case obj kvs => exact absurd rfl (hobj kvs)
    all_goals rfl
  have hstep : processLinks env max_projects (url :: links₂) st₂ = .error () := by
    simp only [processLinks, hcap₂, Bool.false_eq_true, if_false]
    rw [if_neg hblob]
    simp only [hext, htru, if_true, hset]
  have hlinks : processLinks env max_projects (links₁ ++ url :: links₂)
      ⟨st.projects, st.trace ++ [Ev.query q]⟩ = .error () := by
    rw [processLinks_append env max_projects links₁ (url :: links₂) _ _ hpre₂ hcap₂,
      hstep]
  have hquery : processQueries env max_projects (q :: qs₂) st = .error () := by
    simp only [processQueries, hl]
    rw [if_neg (by simp : ¬(links₁ ++ url :: links₂) = []), hlinks]
  have hq : processQueries env max_projects (qs₁ ++ q :: qs₂) ⟨[], []⟩ = .error () := by
    rw [processQueries_append env max_projects qs₁ (q :: qs₂) _ _ hpre hcap₁, hquery]
  simp only [main_agent, hg, hq]

theorem C10_truthy_non_object_aborts_run_witness :
    main_agent envC10 none = .error () :=
  C10_truthy_non_object_aborts_run envC10 none [] [] (pyStr "q")
    [pyStr "https://www.findaphd.com/phds/1"] []
    (pyStr "https://www.findaphd.com/phds/2")
    ⟨[], []⟩
    ⟨[recC10],
     [.query (pyStr "q"), .fetch (pyStr "https://www.findaphd.com/phds/1"),
      .accept recC10]⟩
    (.arr [.num 1])
    rfl rfl rfl rfl rfl rfl (by decide) rfl rfl (fun kvs h => (nomatch h))

/-- C10 counterexample: an empty JSON array is a valid non-object parse that
`extract_project_info` returns as-is, yet the run does not abort — the value
is Python-falsy, so the link is skipped and the run completes normally with
no CSV. -/
theorem C10_falsy_non_object_skipped :
    (extract_project_info envC10c
        (get_clean_text envC10c (pyStr "https://www.findaphd.com/phds/1"))
        (pyStr "https://www.findaphd.com/phds/1")).1 = some (Json.arr [])
    ∧ (∀ kvs, Json.arr [] ≠ Json.obj kvs)
    ∧ main_agent envC10c none
        = .ok ⟨some [], none,
            [.query (pyStr "q"), .fetch (pyStr "https://www.findaphd.com/phds/1")]⟩ :=
  ⟨rfl, fun kvs h => (nomatch h), rfl⟩
